import Mathlib

/-!
Formalisation of the osc crate (Open Sound Control message codec, client
correlation engine and server dispatch loop) as a shallow embedding.

Bytes are modelled as natural numbers; Rust strings are modelled as their
UTF-8 byte sequences (a Rust String is always valid UTF-8, so the byte-level
model loses no information for the properties considered here).  A Rust f32
is modelled by its 32-bit IEEE-754 bit pattern, since the codec only moves
float bit patterns (to_be_bytes / from_be_bytes) and the one place that
compares floats is modelled by a bit-level IEEE-754 comparison.
-/

deriving instance DecidableEq for Except

namespace Osc

abbrev Byte := Nat

/-- Model of std::io::ErrorKind, restricted to the kinds the code inspects. -/
inductive IOErrorKind where
  | wouldBlock
  | timedOut
  | other
deriving DecidableEq, Repr

/-- Model of errors.rs: enum Error. Context strings of Utf8 and Malformed are
kept as Lean strings; the char payload of UnrecognisedTypeTag is its byte
value (the tags in question are ASCII). -/
inductive Error where
  | utf8 (ctx : String)
  | dataLength (expected received : Nat)
  | noData (expected : Nat)
  | unrecognisedTypeTag (tag : Byte)
  | alignment (length expected : Nat)
  | malformed (ctx : String)
  | socket (k : IOErrorKind)
  | blobSize (size : Int)
deriving DecidableEq, Repr

/-- Model of lib.rs: enum Arg. int carries the i32 value as an Int,
float carries the IEEE-754 bit pattern, str and blob carry byte lists. -/
inductive Arg where
  | int (i : Int)
  | float (bits : Nat)
  | str (s : List Byte)
  | blob (b : List Byte)
deriving DecidableEq, Repr

/-- Model of lib.rs: struct OscMessage. -/
structure OscMessage where
  address : List Byte
  args : List Arg
deriving DecidableEq, Repr

/-- Model of lib.rs: arg_char_repr (byte values of the ASCII chars
i, f, s, b). -/
def arg_char_repr : Arg → Byte
  | .int _ => 105
  | .float _ => 102
  | .str _ => 115
  | .blob _ => 98

/-- Big-endian bytes of an unsigned 32-bit value (to_be_bytes). -/
def toBytes4 (u : Nat) : List Byte :=
  [u / 16777216 % 256, u / 65536 % 256, u / 256 % 256, u % 256]

/-- Unsigned value of four big-endian bytes (from_be_bytes, unsigned view). -/
def fromBytes4 (b0 b1 b2 b3 : Byte) : Nat :=
  ((b0 * 256 + b1) * 256 + b2) * 256 + b3

/-- Reinterpret an unsigned 32-bit value as an i32 (two's complement). -/
def toInt32 (u : Nat) : Int :=
  if u < 2147483648 then (u : Int) else (u : Int) - 4294967296

/-- Big-endian bytes of an i32 value (i32::to_be_bytes). -/
def int32ToBytes (i : Int) : List Byte :=
  toBytes4 (i % 4294967296).toNat

/-- Model of lib.rs: write_string. Appends 4 - len % 4 zero bytes
(between 1 and 4 of them). -/
def write_string (s : List Byte) : List Byte :=
  s ++ List.replicate (4 - s.length % 4) 0

/-- Model of lib.rs: write_blob. The length prefix is computed before the
padding is appended; i32::try_from fails exactly when the length exceeds
i32::MAX = 2147483647, yielding DataLength(i32::MAX, len). -/
def write_blob (b : List Byte) : Except Error (List Byte) :=
  if b.length ≤ 2147483647 then
    .ok (toBytes4 b.length ++ (b ++ List.replicate (4 - b.length % 4) 0))
  else .error (.dataLength 2147483647 b.length)

/-- Model of lib.rs: write_arg. -/
def write_arg : Arg → Except Error (List Byte)
  | .float f => .ok (toBytes4 f)
  | .int i => .ok (int32ToBytes i)
  | .str s => .ok (write_string s)
  | .blob b => write_blob b

/-- The value section of a message: each argument encoded by write_arg, in
order (the tag char and value of each argument are emitted by the same loop
iteration in build; tags cannot fail, so the loop is equivalently a map for
the tags plus this fold for the values). -/
def writeArgs : List Arg → Except Error (List Byte)
  | [] => .ok []
  | a :: rest =>
    match write_arg a with
    | .error e => .error e
    | .ok v =>
      match writeArgs rest with
      | .error e => .error e
      | .ok vs => .ok (v ++ vs)

/-- Model of lib.rs: OscMessage::build. In the empty-args branch the Rust
code round-trips the one-char string "," through String::from_utf8, which
cannot fail for this fixed ASCII input, so the branch is modelled as
directly emitting the padded "," (byte 44). -/
def build (m : OscMessage) : Except Error (List Byte) :=
  if m.args.isEmpty then
    .ok (write_string m.address ++ write_string [44])
  else
    match writeArgs m.args with
    | .error e => .error e
    | .ok vals =>
      .ok (write_string m.address ++ write_string (44 :: m.args.map arg_char_repr) ++ vals)

/-- The null-terminated scan of parse_bytes: collect bytes until the first
zero byte or the end of the list, returning the collected bytes and how many
positions were consumed. -/
def scanZero : List Byte → List Byte × Nat
  | [] => ([], 0)
  | b :: rest =>
    if b = 0 then ([], 0)
    else
      let p := scanZero rest
      (b :: p.1, p.2 + 1)

/-- The cursor re-alignment of parse_bytes: i += 4 - (i % 4). -/
def alignUp (i : Nat) : Nat := i + (4 - i % 4)

/-- Model of lib.rs: scan_into_byte_array filling an array of length n0,
reading one byte at a time from position i; a missing byte at position j
yields DataLength(n0, j). Returns the bytes read and the new cursor. -/
def scanN (data : List Byte) (n0 : Nat) : Nat → Nat → Except Error (List Byte × Nat)
  | 0, i => .ok ([], i)
  | n + 1, i =>
    match data[i]? with
    | none => .error (.dataLength n0 i)
    | some b =>
      match scanN data n0 n (i + 1) with
      | .error e => .error e
      | .ok (bs, j) => .ok (b :: bs, j)

/-- The unsigned 32-bit value of the first four bytes of a scanned buffer. -/
def bytesVal (bs : List Byte) : Nat :=
  fromBytes4 (bs.getD 0 0) (bs.getD 1 0) (bs.getD 2 0) (bs.getD 3 0)

/-- Whether a tag byte is one of i, f, s, b (lib.rs: the Ok cases of
type_tag_to_default_arg). -/
def isGoodTag (t : Byte) : Bool :=
  t == 105 || t == 102 || t == 115 || t == 98

/-- The first pass of parse_bytes over the type tags: lib.rs pushes
type_tag_to_default_arg(tag)? for each tag char, so the loop stops at the
first unrecognised tag with UnrecognisedTypeTag before any value byte is
consumed. -/
def checkTags : List Byte → Except Error Unit
  | [] => .ok ()
  | t :: ts =>
    if isGoodTag t then checkTags ts
    else .error (.unrecognisedTypeTag t)

/-- The second pass of parse_bytes: fill each typed slot from the value
section, in tag order. Int and Float read exactly 4 bytes; Str repeats the
null-scan-then-align step; Blob reads a 4-byte big-endian signed length,
rejects negative lengths with BlobSize, then reads exactly that many bytes
(with no padding skip afterwards, exactly as the Rust decode path does).
The final branch is unreachable after checkTags. -/
def readArgs (data : List Byte) : List Byte → Nat → Except Error (List Arg × Nat)
  | [], i => .ok ([], i)
  | t :: ts, i =>
    if t = 105 then
      match scanN data 4 4 i with
      | .error e => .error e
      | .ok (bs, j) =>
        match readArgs data ts j with
        | .error e => .error e
        | .ok (rest, k) => .ok (.int (toInt32 (bytesVal bs)) :: rest, k)
    else if t = 102 then
      match scanN data 4 4 i with
      | .error e => .error e
      | .ok (bs, j) =>
        match readArgs data ts j with
        | .error e => .error e
        | .ok (rest, k) => .ok (.float (bytesVal bs) :: rest, k)
    else if t = 115 then
      let p := scanZero (data.drop i)
      match readArgs data ts (alignUp (i + p.2)) with
      | .error e => .error e
      | .ok (rest, k) => .ok (.str p.1 :: rest, k)
    else if t = 98 then
      match scanN data 4 4 i with
      | .error e => .error e
      | .ok (bs, j) =>
        let size := toInt32 (bytesVal bs)
        if size < 0 then .error (.blobSize size)
        else
          match scanN data size.toNat size.toNat j with
          | .error e => .error e
          | .ok (blob, k) =>
            match readArgs data ts k with
            | .error e => .error e
            | .ok (rest, l) => .ok (.blob blob :: rest, l)
    else .error (.unrecognisedTypeTag t)

/-- Model of lib.rs: OscMessage::parse_bytes. String::from_utf8 on the
scanned address / tag / string bytes is the identity in the byte-level model
(its Utf8 failure cases do not arise for the buffers considered in the
theorems below, which are ASCII). Note arg_types_str.remove(0) removes the
leading comma even when it matches, and an empty tag string is accepted with
no arguments. -/
def parse_bytes (data : List Byte) : Except Error OscMessage :=
  if data.length % 4 ≠ 0 then .error (.alignment data.length 4)
  else
    let p1 := scanZero data
    let i1 := alignUp p1.2
    let p2 := scanZero (data.drop i1)
    let i2 := alignUp (i1 + p2.2)
    match p2.1 with
    | [] => .ok ⟨p1.1, []⟩
    | c :: tags =>
      if c ≠ 44 then .error (.malformed "OSC argument type tags")
      else
        match checkTags tags with
        | .error e => .error e
        | .ok _ =>
          match readArgs data tags i2 with
          | .error e => .error e
          | .ok (args, _) => .ok ⟨p1.1, args⟩

/-- The tail of parse_bytes after the two header scans: given the scanned
address, the scanned tag string and the cursor at the start of the value
section, validate the leading comma, run the tag first pass, then the value
second pass. Used to state how parse_bytes behaves on well-formed headers. -/
def parseTail (data a t : List Byte) (i2 : Nat) : Except Error OscMessage :=
  match t with
  | [] => .ok ⟨a, []⟩
  | c :: tags =>
    if c ≠ 44 then .error (.malformed "OSC argument type tags")
    else
      match checkTags tags with
      | .error e => .error e
      | .ok _ =>
        match readArgs data tags i2 with
        | .error e => .error e
        | .ok (args, _) => .ok ⟨a, args⟩

/-! ## Client (client.rs) -/

/-- Model of client.rs: the receive buffer built by OscClient::new,
vec![0; buffer_size]. -/
def clientBuffer (buffer_size : Nat) : List Byte :=
  List.replicate buffer_size 0

/-- Model of client.rs: OscClient::recv. recv copies
min(datagram length, buffer length) bytes into the front of the buffer,
leaving the rest of the buffer unchanged; the code then passes the ENTIRE
buffer to parse_bytes, ignoring the returned byte count. -/
def clientRecv (buffer received : List Byte) : Except Error OscMessage :=
  parse_bytes
    (received.take (min received.length buffer.length) ++
      buffer.drop (min received.length buffer.length))

/-- Model of client.rs: the queue scan at the top of OscClient::wait_for,
including the VecDeque::remove, which preserves the relative order of the
remaining entries. Returns the first entry whose address matches and the
queue with that entry removed. -/
def scanQueue (addr : List Byte) : List OscMessage → Option (OscMessage × List OscMessage)
  | [] => none
  | m :: rest =>
    if m.address = addr then some (m, rest)
    else
      match scanQueue addr rest with
      | some (f, r) => some (f, m :: r)
      | none => none

/-- Model of client.rs: OscClient::handle_waiting_errors, acting on the
message queue. A matching message is returned, a non-matching one is pushed
at the back, a WouldBlock socket error is swallowed, any other error is
surfaced. -/
def handle_waiting_errors (queue : List OscMessage) (res : Except Error OscMessage)
    (addr : List Byte) : Except Error (Option OscMessage × List OscMessage) :=
  match res with
  | .ok msg =>
    if msg.address = addr then .ok (some msg, queue)
    else .ok (none, queue ++ [msg])
  | .error (.socket .wouldBlock) => .ok (none, queue)
  | .error e => .error e

/-- The polling loop of wait_for, driven by an oracle: the list of results
the underlying connection recv (composed with parse_bytes) would return on
successive calls. Exhausting the oracle models the wall-clock timeout.
Returns the result, the final queue, and the unconsumed oracle. -/
def waitLoop (addr : List Byte) (queue : List OscMessage) :
    List (Except Error OscMessage) →
      Except Error OscMessage × List OscMessage × List (Except Error OscMessage)
  | [] => (.error (.socket .timedOut), queue, [])
  | r :: rest =>
    match handle_waiting_errors queue r addr with
    | .error e => (.error e, queue, rest)
    | .ok (some m, q) => (.ok m, q, rest)
    | .ok (none, q) => waitLoop addr q rest

/-- Model of client.rs: OscClient::wait_for. First the correlation queue is
scanned (no I/O); only if no entry matches does the client start polling the
connection. -/
def wait_for (addr : List Byte) (queue : List OscMessage)
    (incoming : List (Except Error OscMessage)) :
    Except Error OscMessage × List OscMessage × List (Except Error OscMessage) :=
  match scanQueue addr queue with
  | some (m, q) => (.ok m, q, incoming)
  | none => waitLoop addr queue incoming

/-! ## Server (server.rs) -/

/-- The route table of server.rs, modelled as an association list with
exact-address lookup (HashMap with add_route asserting uniqueness). -/
def RouteTable := List (List Byte × (OscMessage → Option (List Arg)))

/-- Model of server.rs: OscServer::handle_request via route-table lookup. -/
def lookupRoute : RouteTable → List Byte → Option (OscMessage → Option (List Arg))
  | [], _ => none
  | (a, f) :: rest, addr => if a = addr then some f else lookupRoute rest addr

/-- One transport event seen by the server loop: either recv_from returned
an error, or it returned a datagram (the buffer contents) from a sender. -/
inductive RecvEvent where
  | failure
  | datagram (data : List Byte) (sender : Nat)

/-- One iteration of the loop body of OscServer::start. recv_from errors
are skipped (the if-let discards them), decode failures are skipped, an
unrouted address or a handler returning no reply sends nothing; a handler
reply overwrites the request's args (same address), is re-encoded and sent
back to the sender (the send result itself is discarded). The only error is
a build failure on the reply, which propagates out via the question-mark
operator. -/
def serverStep (rt : RouteTable) : RecvEvent → Except Error (Option (List Byte × Nat))
  | .failure => .ok none
  | .datagram d sender =>
    match parse_bytes d with
    | .error _ => .ok none
    | .ok msg =>
      match lookupRoute rt msg.address with
      | none => .ok none
      | some f =>
        match f msg with
        | none => .ok none
        | some response =>
          match build ⟨msg.address, response⟩ with
          | .error e => .error e
          | .ok out => .ok (some (out, sender))

/-- The server loop of OscServer::start run over a finite trace of transport
events, collecting the replies it sends; an error from the loop body stops
the loop and propagates. -/
def serverRun (rt : RouteTable) : List RecvEvent → Except Error (List (List Byte × Nat))
  | [] => .ok []
  | ev :: rest =>
    match serverStep rt ev with
    | .error e => .error e
    | .ok none => serverRun rt rest
    | .ok (some reply) =>
      match serverRun rt rest with
      | .error e => .error e
      | .ok rs => .ok (reply :: rs)

/-! ## Validity and helper predicates -/

/-- A valid argument: the i32 payload is in i32 range, the float bit pattern
is 32 bits, string bytes are nonzero bytes (no embedded NUL, per the data
model), blob bytes are bytes and the blob fits an i32 count. -/
def validArg : Arg → Bool
  | .int i => decide (-2147483648 ≤ i ∧ i < 2147483648)
  | .float f => decide (f < 4294967296)
  | .str s => s.all fun b => b != 0 && decide (b < 256)
  | .blob b => decide (b.length ≤ 2147483647) && b.all fun x => decide (x < 256)

/-- A valid message: address bytes are nonzero bytes and all arguments are
valid. -/
def validMsg (m : OscMessage) : Bool :=
  (m.address.all fun b => b != 0 && decide (b < 256)) && m.args.all validArg

/-- Whether an argument is not a blob. -/
def notBlob : Arg → Bool
  | .blob _ => false
  | _ => true

/-- Every blob argument is in final position. -/
def blobLastOnly : List Arg → Bool
  | [] => true
  | [_] => true
  | a :: b :: rest => notBlob a && blobLastOnly (b :: rest)

/-- The bytes write_arg emits for one argument, as a total function (write_arg
agrees with it whenever it succeeds, i.e. whenever a blob fits an i32 count). -/
def encArg : Arg → List Byte
  | .int i => int32ToBytes i
  | .float f => toBytes4 f
  | .str s => write_string s
  | .blob b => toBytes4 b.length ++ (b ++ List.replicate (4 - b.length % 4) 0)

/-- The value section of a message: the concatenated argument encodings. -/
def valsOf : List Arg → List Byte
  | [] => []
  | a :: rest => encArg a ++ valsOf rest

/-- The first tag byte that is not one of i, f, s, b. -/
def firstBadTag : List Byte → Option Byte
  | [] => none
  | t :: ts => if isGoodTag t then firstBadTag ts else some t

/-! ## IEEE-754 comparison for the f32 conversion (lib.rs TryFrom) -/

/-- A 32-bit pattern denotes a NaN: exponent all ones, mantissa nonzero. -/
def f32IsNaN (bits : Nat) : Bool :=
  (bits / 8388608) % 256 == 255 && bits % 8388608 != 0

/-- The sign bit of a 32-bit float pattern. -/
def f32Neg (bits : Nat) : Bool := bits / 2147483648 % 2 == 1

/-- IEEE-754 less-or-equal on 32-bit patterns: false if either side is NaN;
otherwise compare by sign then magnitude, with -0.0 equal to +0.0. -/
def f32Le (a b : Nat) : Bool :=
  if f32IsNaN a || f32IsNaN b then false
  else
    let am := a % 2147483648
    let bm := b % 2147483648
    match f32Neg a, f32Neg b with
    | false, false => am ≤ bm
    | true, true => bm ≤ am
    | true, false => true
    | false, true => am == 0 && bm == 0

/-- The bit pattern of 1.0f32. -/
def oneBits : Nat := 1065353216

/-- Model of lib.rs: TryFrom for f32 on Arg. Succeeds only for a Float
whose value f satisfies 0.0 <= f <= 1.0 under IEEE-754 comparison; every
other input is Malformed. -/
def tryFromArgF32 : Arg → Except Error Nat
  | .float f =>
    if f32Le 0 f && f32Le f oneBits then .ok f
    else .error (.malformed "not Float or not in the valid OSC range (0..=1)")
  | _ => .error (.malformed "not Float or not in the valid OSC range (0..=1)")

/-- Model of lib.rs: From f32 for Arg, total over all bit patterns. -/
def argFromF32 (bits : Nat) : Arg := .float bits

/-! ## Basic facts about the encoders -/

theorem length_write_string (s : List Byte) :
    (write_string s).length = s.length + (4 - s.length % 4) := by
  simp [write_string]

theorem length_write_string_mod (s : List Byte) : (write_string s).length % 4 = 0 := by
  rw [length_write_string]
  omega

theorem length_toBytes4 (u : Nat) : (toBytes4 u).length = 4 := by
  simp [toBytes4]

theorem write_blob_ok (b : List Byte) (h : b.length ≤ 2147483647) :
    write_blob b = .ok (toBytes4 b.length ++ (b ++ List.replicate (4 - b.length % 4) 0)) := by
  simp [write_blob, h]

theorem writeArgs_length (args : List Arg) (v : List Byte) (h : writeArgs args = .ok v) :
    v.length % 4 = 0 := by
  induction args generalizing v with
  | nil =>
    simp [writeArgs] at h
    subst h
    rfl
  | cons a rest ih =>
    rw [writeArgs] at h
    cases ha : write_arg a with
    | error e => rw [ha] at h; exact absurd h (by simp)
    | ok w =>
      rw [ha] at h
      cases hr : writeArgs rest with
      | error e => rw [hr] at h; exact absurd h (by simp)
      | ok ws =>
        rw [hr] at h
        simp at h
        have hw : w.length % 4 = 0 := by
          cases a with
          | int i =>
            simp [write_arg, int32ToBytes] at ha
            rw [← ha, length_toBytes4]
          | float f =>
            simp [write_arg] at ha
            rw [← ha, length_toBytes4]
          | str s =>
            simp [write_arg] at ha
            rw [← ha]
            exact length_write_string_mod s
          | blob b =>
            simp only [write_arg, write_blob] at ha
            by_cases hb : b.length ≤ 2147483647
            · rw [if_pos hb] at ha
              simp at ha
              rw [← ha]
              simp [length_toBytes4]
              omega
            · rw [if_neg hb] at ha
              exact absurd ha (by simp)
        have := ih ws hr
        rw [← h]
        simp
        omega

/-- C5: every field written by the encoder, and the whole built message,
occupies a number of bytes that is a multiple of 4. -/
theorem C5_alignment :
    (∀ s : List Byte, (write_string s).length % 4 = 0) ∧
    (∀ b out, write_blob b = .ok out → out.length % 4 = 0) ∧
    (∀ a out, write_arg a = .ok out → out.length % 4 = 0) ∧
    (∀ m bs, build m = .ok bs → bs.length % 4 = 0) := by
  have hblob : ∀ b out, write_blob b = .ok out → out.length % 4 = 0 := by
    intro b out h
    simp only [write_blob] at h
    by_cases hb : b.length ≤ 2147483647
    · rw [if_pos hb] at h
      simp at h
      rw [← h]
      simp [length_toBytes4]
      omega
    · rw [if_neg hb] at h
      exact absurd h (by simp)
  have harg : ∀ a out, write_arg a = .ok out → out.length % 4 = 0 := by
    intro a out h
    cases a with
    | int i =>
      simp [write_arg, int32ToBytes] at h
      rw [← h, length_toBytes4]
    | float f =>
      simp [write_arg] at h
      rw [← h, length_toBytes4]
    | str s =>
      simp [write_arg] at h
      rw [← h]
      exact length_write_string_mod s
    | blob b => exact hblob b out h
  refine ⟨length_write_string_mod, hblob, harg, ?_⟩
  intro m bs h
  rw [build] at h
  by_cases he : m.args.isEmpty
  · rw [if_pos he] at h
    simp at h
    rw [← h]
    simp
    have := length_write_string_mod m.address
    have := length_write_string_mod [44]
    omega
  · rw [if_neg he] at h
    cases hv : writeArgs m.args with
    | error e => rw [hv] at h; exact absurd h (by simp)
    | ok vals =>
      rw [hv] at h
      simp at h
      rw [← h]
      simp
      have := length_write_string_mod m.address
      have := length_write_string_mod (44 :: m.args.map arg_char_repr)
      have := writeArgs_length m.args vals hv
      omega

/-- C5 witness: the alignment facts evaluated at a concrete message. -/
theorem C5_alignment_witness :
    ∃ bs, build ⟨[47, 97], [Arg.int 5, Arg.str [104, 105]]⟩ = .ok bs ∧ bs.length % 4 = 0 :=
  ⟨[47, 97, 0, 0, 44, 105, 115, 0, 0, 0, 0, 5, 104, 105, 0, 0],
    by decide,
    C5_alignment.2.2.2 ⟨[47, 97], [Arg.int 5, Arg.str [104, 105]]⟩ _ (by decide)⟩

/-- C6: a written string is the raw bytes followed by 1 to 4 zero bytes,
the total being the smallest multiple of 4 strictly greater than the raw
length; an already-aligned string receives exactly 4 zero bytes. -/
theorem C6_string_padding : ∀ s : List Byte,
    (write_string s).take s.length = s ∧
    (write_string s).drop s.length = List.replicate ((write_string s).length - s.length) 0 ∧
    1 ≤ (write_string s).length - s.length ∧
    (write_string s).length - s.length ≤ 4 ∧
    (write_string s).length % 4 = 0 ∧
    s.length < (write_string s).length ∧
    (∀ n, n % 4 = 0 → s.length < n → (write_string s).length ≤ n) ∧
    (s.length % 4 = 0 → (write_string s).length = s.length + 4) := by
  intro s
  have hlen := length_write_string s
  refine ⟨?_, ?_, by omega, by omega, length_write_string_mod s, by omega, ?_, by omega⟩
  · rw [write_string, List.take_left]
  · rw [write_string, List.drop_left]
    congr 1
    simp [write_string]
  · intro n hn hlt
    omega

/-- C6 witness: padding behaviour at a 4-byte-aligned concrete string. -/
theorem C6_string_padding_witness :
    (write_string [47, 112, 111, 110]).length = 4 + 4 ∧
    (write_string [47, 112, 111, 110]).drop 4 = List.replicate 4 0 := by
  have h := C6_string_padding [47, 112, 111, 110]
  refine ⟨h.2.2.2.2.2.2.2 (by decide), ?_⟩
  have h2 := h.2.1
  rw [h.2.2.2.2.2.2.2 (by decide)] at h2
  simpa using h2

/-- C9: the client passes the whole fixed-size buffer to parse_bytes, so a
buffer size that is not a multiple of 4 makes every recv that obtains data
fail with Alignment(buffer_size, 4), whatever the datagram contains. -/
theorem C9_recv_alignment (buffer_size : Nat) (received : List Byte)
    (h : buffer_size % 4 ≠ 0) :
    clientRecv (clientBuffer buffer_size) received = .error (.alignment buffer_size 4) := by
  unfold clientRecv
  have hlen : (received.take (min received.length (clientBuffer buffer_size).length) ++
      (clientBuffer buffer_size).drop
        (min received.length (clientBuffer buffer_size).length)).length = buffer_size := by
    simp [clientBuffer]
  rw [parse_bytes, hlen]
  rw [if_pos h]

/-- C9 witness: a 5-byte buffer fails with Alignment(5, 4) on a datagram. -/
theorem C9_recv_alignment_witness :
    clientRecv (clientBuffer 5) [47, 97, 0, 0] = .error (.alignment 5 4) :=
  C9_recv_alignment 5 [47, 97, 0, 0] (by decide)

/-- C10: the f32 conversion succeeds exactly for a Float argument whose
value lies in the closed IEEE-754 interval from 0.0 to 1.0; everything else
is Malformed, although the reverse conversion accepts any f32. -/
theorem C10_f32_range :
    (∀ a f, tryFromArgF32 a = .ok f ↔
      (a = Arg.float f ∧ f32Le 0 f = true ∧ f32Le f oneBits = true)) ∧
    (∀ a, (∀ f, tryFromArgF32 a ≠ .ok f) →
      tryFromArgF32 a = .error (.malformed "not Float or not in the valid OSC range (0..=1)")) ∧
    (∃ bits, tryFromArgF32 (argFromF32 bits) =
      .error (.malformed "not Float or not in the valid OSC range (0..=1)")) := by
  refine ⟨?_, ?_, ⟨1073741824, by decide⟩⟩
  · intro a f
    constructor
    · intro h
      cases a with
      | float g =>
        rw [tryFromArgF32] at h
        by_cases hg : f32Le 0 g && f32Le g oneBits
        · rw [if_pos hg] at h
          simp at h
          simp at hg
          exact ⟨by rw [h], by rw [← h]; exact hg.1, by rw [← h]; exact hg.2⟩
        · rw [if_neg hg] at h
          exact absurd h (by simp)
      | int i => exact absurd h (by simp [tryFromArgF32])
      | str s => exact absurd h (by simp [tryFromArgF32])
      | blob b => exact absurd h (by simp [tryFromArgF32])
    · rintro ⟨rfl, h0, h1⟩
      rw [tryFromArgF32, if_pos (by simp [h0, h1])]
  · intro a h
    cases a with
    | float g =>
      rw [tryFromArgF32]
      by_cases hg : f32Le 0 g && f32Le g oneBits
      · exact absurd (by rw [tryFromArgF32, if_pos hg]) (h g)
      · rw [if_neg hg]
    | int i => rfl
    | str s => rfl
    | blob b => rfl

/-- C10 witness: 0.5 (bit pattern 1056964608) converts, 2.0 (bit pattern
1073741824) does not. -/
theorem C10_f32_range_witness :
    tryFromArgF32 (Arg.float 1056964608) = .ok 1056964608 ∧
    tryFromArgF32 (Arg.float 1073741824) =
      .error (.malformed "not Float or not in the valid OSC range (0..=1)") :=
  ⟨(C10_f32_range.1 (Arg.float 1056964608) 1056964608).mpr ⟨rfl, by decide, by decide⟩,
    C10_f32_range.2.1 (Arg.float 1073741824) (fun _ h => Except.noConfusion h)⟩

/-! ## Scanning the header of a well-formed buffer -/

theorem scanZero_no_zero_append (s r : List Byte) (hs : ∀ b ∈ s, b ≠ 0) :
    scanZero (s ++ 0 :: r) = (s, s.length) := by
  induction s with
  | nil => simp [scanZero]
  | cons b t ih =>
    simp only [List.cons_append, scanZero]
    rw [if_neg (hs b (by simp))]
    have := ih (fun x hx => hs x (by simp [hx]))
    simp only [List.append_eq] at this ⊢
    rw [this]
    simp

theorem write_string_cons_zero (s X : List Byte) :
    write_string s ++ X =
      s ++ 0 :: (List.replicate (4 - s.length % 4 - 1) 0 ++ X) := by
  rw [write_string, List.append_assoc]
  congr 1
  have h4 : 4 - s.length % 4 = (4 - s.length % 4 - 1) + 1 := by omega
  rw [h4, List.replicate_succ]
  simp

theorem alignUp_length_write_string (s : List Byte) :
    alignUp s.length = (write_string s).length := by
  rw [alignUp, length_write_string]

theorem alignUp_aligned_add (i n : Nat) (hi : i % 4 = 0) :
    alignUp (i + n) = i + alignUp n := by
  rw [alignUp, alignUp]
  omega

/-- Parsing a buffer laid out as padded address, padded tag string, value
section: the alignment check passes, the address and tag string are
recovered exactly, and the cursor reaches the start of the value section. -/
theorem parse_header (a t r : List Byte) (ha : ∀ b ∈ a, b ≠ 0) (ht : ∀ b ∈ t, b ≠ 0)
    (hlen : (write_string a ++ (write_string t ++ r)).length % 4 = 0) :
    parse_bytes (write_string a ++ (write_string t ++ r)) =
      parseTail (write_string a ++ (write_string t ++ r)) a t
        ((write_string a).length + (write_string t).length) := by
  have h1 : scanZero (write_string a ++ (write_string t ++ r)) = (a, a.length) := by
    rw [write_string_cons_zero]
    exact scanZero_no_zero_append a _ ha
  have hdrop1 : (write_string a ++ (write_string t ++ r)).drop (write_string a).length =
      write_string t ++ r := List.drop_left _ _
  have h2 : scanZero (write_string t ++ r) = (t, t.length) := by
    rw [write_string_cons_zero]
    exact scanZero_no_zero_append t _ ht
  have hal2 : alignUp ((write_string a).length + t.length) =
      (write_string a).length + (write_string t).length := by
    rw [alignUp_aligned_add _ _ (length_write_string_mod a), alignUp_length_write_string]
  rw [parse_bytes, if_neg (by simp only [ne_eq, not_not]; simpa using hlen)]
  simp only [h1, alignUp_length_write_string, hdrop1, h2, hal2]
  rw [parseTail.eq_def]

/-- The type-tag first pass fails at the first unrecognised tag. -/
theorem checkTags_firstBad (ts : List Byte) (k : Byte) (h : firstBadTag ts = some k) :
    checkTags ts = .error (.unrecognisedTypeTag k) := by
  induction ts with
  | nil => exact absurd h (by simp [firstBadTag])
  | cons t rest ih =>
    rw [firstBadTag] at h
    rw [checkTags]
    by_cases hg : isGoodTag t
    · rw [if_pos hg] at h
      rw [if_pos hg]
      exact ih h
    · rw [if_neg hg] at h
      rw [if_neg hg]
      simp at h
      rw [h]

/-- C7: a 4-byte-aligned buffer whose type-tag string starts with the comma
and contains a tag outside i, f, s, b fails with UnrecognisedTypeTag at the
first such tag, whatever the value section holds (the value bytes r are
arbitrary, in particular too short to satisfy the declared tags), because
the tag scan happens before any value byte is consumed. -/
theorem C7_tag_priority (a ts r : List Byte) (k : Byte)
    (ha : ∀ b ∈ a, b ≠ 0) (hts : ∀ b ∈ ts, b ≠ 0 ∧ b < 128)
    (hk : firstBadTag ts = some k)
    (hlen : (write_string a ++ (write_string (44 :: ts) ++ r)).length % 4 = 0) :
    parse_bytes (write_string a ++ (write_string (44 :: ts) ++ r)) =
      .error (.unrecognisedTypeTag k) := by
  rw [parse_header a (44 :: ts) r ha
    (by intro b hb; rcases List.mem_cons.mp hb with h44 | hmem
        · simp [h44]
        · exact (hts b hmem).1) hlen]
  simp only [parseTail]
  simp only [ne_eq, not_true_eq_false, if_false, checkTags_firstBad ts k hk]

/-- C7 witness: tag z (122) in ",iz" is reported before the missing value
bytes for the i tag can be noticed: the value section is empty, so a
DataLength error would otherwise be produced. -/
theorem C7_tag_priority_witness :
    parse_bytes (write_string [47, 97] ++ (write_string [44, 105, 122] ++ [])) =
      .error (.unrecognisedTypeTag 122) :=
  C7_tag_priority [47, 97] [105, 122] [] 122 (by decide) (by decide) (by decide) (by decide)

/-! ## Reading fixed-width fields (scan_into_byte_array) -/

theorem scanN_ok (data : List Byte) (n0 : Nat) :
    ∀ n i, n ≤ (data.drop i).length →
      scanN data n0 n i = .ok ((data.drop i).take n, i + n) := by
  intro n
  induction n with
  | zero => intro i _; simp [scanN]
  | succ n ih =>
    intro i h
    cases hdi : data.drop i with
    | nil => rw [hdi] at h; simp at h
    | cons b rest =>
      have hb : data[i]? = some b := by
        have : (data.drop i)[0]? = data[i + 0]? := List.getElem?_drop data i 0
        rw [hdi] at this
        simpa using this.symm
      have hdrop : data.drop (i + 1) = rest := by
        have : data.drop (i + 1) = (data.drop i).drop 1 := (List.drop_drop 1 i data).symm
        rw [hdi] at this
        simpa using this
      have hlen : n ≤ (data.drop (i + 1)).length := by
        rw [hdrop]
        rw [hdi] at h
        simpa using h
      rw [scanN, hb, ih (i + 1) hlen, hdrop]
      simp
      omega

/-- C8: a 4-byte-aligned buffer declaring a blob whose big-endian length
field decodes to a negative value n fails with BlobSize(n). -/
theorem C8_blob_negative (a : List Byte) (s0 s1 s2 s3 : Byte) (r : List Byte)
    (ha : ∀ b ∈ a, b ≠ 0)
    (hneg : toInt32 (fromBytes4 s0 s1 s2 s3) < 0)
    (hlen : (write_string a ++ (write_string [44, 98] ++ ([s0, s1, s2, s3] ++ r))).length % 4 = 0) :
    parse_bytes (write_string a ++ (write_string [44, 98] ++ ([s0, s1, s2, s3] ++ r))) =
      .error (.blobSize (toInt32 (fromBytes4 s0 s1 s2 s3))) := by
  have hdrop : (write_string a ++ (write_string [44, 98] ++ ([s0, s1, s2, s3] ++ r))).drop
      ((write_string a).length + (write_string [44, 98]).length) = [s0, s1, s2, s3] ++ r := by
    rw [← List.drop_drop, List.drop_left]
    exact List.drop_left _ _
  have hscan4 : scanN (write_string a ++ (write_string [44, 98] ++ ([s0, s1, s2, s3] ++ r))) 4 4
      ((write_string a).length + (write_string [44, 98]).length) =
      .ok ([s0, s1, s2, s3],
        (write_string a).length + (write_string [44, 98]).length + 4) := by
    have h := scanN_ok (write_string a ++ (write_string [44, 98] ++ ([s0, s1, s2, s3] ++ r))) 4 4
      ((write_string a).length + (write_string [44, 98]).length) (by rw [hdrop]; simp)
    rw [hdrop] at h
    rw [h]
    rw [show ([s0, s1, s2, s3] ++ r).take 4 = [s0, s1, s2, s3] from by simp]
  have hread : readArgs (write_string a ++ (write_string [44, 98] ++ ([s0, s1, s2, s3] ++ r))) [98]
      ((write_string a).length + (write_string [44, 98]).length) =
      .error (.blobSize (toInt32 (fromBytes4 s0 s1 s2 s3))) := by
    rw [readArgs]
    rw [if_neg (by decide), if_neg (by decide), if_neg (by decide), if_pos rfl]
    rw [hscan4]
    simp only [show bytesVal [s0, s1, s2, s3] = fromBytes4 s0 s1 s2 s3 from rfl]
    rw [if_pos hneg]
  rw [parse_header a [44, 98] ([s0, s1, s2, s3] ++ r) ha (by decide) hlen]
  simp only [parseTail]
  simp only [ne_eq, not_true_eq_false, if_false]
  simp [checkTags, isGoodTag]
  simp only [List.cons_append, List.nil_append] at hread
  rw [hread]

/-- C8 witness: a length field of FF FF FF FF decodes to -1 and yields
BlobSize(-1). -/
theorem C8_blob_negative_witness :
    parse_bytes (write_string [47, 120] ++ (write_string [44, 98] ++ ([255, 255, 255, 255] ++ []))) =
      .error (.blobSize (-1)) := by
  have h := C8_blob_negative [47, 120] 255 255 255 255 [] (by decide) (by decide) (by decide)
  rw [h]
  rfl

end Osc

namespace Osc

/-! ## Correlation queue (C3) -/

theorem scanQueue_first_match (addr : List Byte) (pre : List OscMessage)
    (m : OscMessage) (post : List OscMessage)
    (hm : m.address = addr) (hpre : ∀ x ∈ pre, x.address ≠ addr) :
    scanQueue addr (pre ++ m :: post) = some (m, pre ++ post) := by
  induction pre with
  | nil =>
    simp only [List.nil_append, scanQueue]
    rw [if_pos hm]
  | cons p rest ih =>
    simp only [List.cons_append, scanQueue]
    rw [if_neg (hpre p (by simp))]
    simp only [List.append_eq]
    rw [ih (fun x hx => hpre x (by simp [hx]))]

/-- C3: wait_for first scans the correlation queue in arrival order; when
some entry matches, the first matching entry is removed and returned with no
transport I/O (the incoming oracle is returned untouched), and all other
entries keep their relative order. -/
theorem C3_wait_for_queue (addr : List Byte) (pre : List OscMessage)
    (m : OscMessage) (post : List OscMessage)
    (incoming : List (Except Error OscMessage))
    (hm : m.address = addr) (hpre : ∀ x ∈ pre, x.address ≠ addr) :
    wait_for addr (pre ++ m :: post) incoming = (.ok m, pre ++ post, incoming) := by
  rw [wait_for, scanQueue_first_match addr pre m post hm hpre]

/-- C3 witness: the three-step scenario with arrivals A("/x"), B("/y"),
C("/x"): the first wait on "/x" returns A, the second returns C, and B stays
queryable via "/y". -/
theorem C3_wait_for_queue_witness :
    wait_for [47, 120]
        [⟨[47, 120], [Arg.int 1]⟩, ⟨[47, 121], [Arg.int 2]⟩, ⟨[47, 120], [Arg.int 3]⟩] [] =
      (.ok ⟨[47, 120], [Arg.int 1]⟩,
        [⟨[47, 121], [Arg.int 2]⟩, ⟨[47, 120], [Arg.int 3]⟩], []) ∧
    wait_for [47, 120] [⟨[47, 121], [Arg.int 2]⟩, ⟨[47, 120], [Arg.int 3]⟩] [] =
      (.ok ⟨[47, 120], [Arg.int 3]⟩, [⟨[47, 121], [Arg.int 2]⟩], []) ∧
    wait_for [47, 121] [⟨[47, 121], [Arg.int 2]⟩] [] =
      (.ok ⟨[47, 121], [Arg.int 2]⟩, [], []) :=
  ⟨C3_wait_for_queue [47, 120] [] ⟨[47, 120], [Arg.int 1]⟩
      [⟨[47, 121], [Arg.int 2]⟩, ⟨[47, 120], [Arg.int 3]⟩] [] rfl (by decide),
    C3_wait_for_queue [47, 120] [⟨[47, 121], [Arg.int 2]⟩] ⟨[47, 120], [Arg.int 3]⟩
      [] [] rfl (by decide),
    C3_wait_for_queue [47, 121] [] ⟨[47, 121], [Arg.int 2]⟩ [] [] rfl (by decide)⟩

/-! ## Server dispatch (C4) and loop error handling (C2) -/

/-- C4: for every decoded request, a registered handler that yields reply
arguments makes the server re-encode the request with its arguments
overwritten (same address) and send the bytes to the original sender; an
unregistered address, or a handler yielding no reply, sends nothing. -/
theorem C4_dispatch :
    (∀ rt d sender msg f response out,
      parse_bytes d = .ok msg →
      lookupRoute rt msg.address = some f →
      f msg = some response →
      build ⟨msg.address, response⟩ = .ok out →
      serverStep rt (.datagram d sender) = .ok (some (out, sender))) ∧
    (∀ rt d sender msg,
      parse_bytes d = .ok msg →
      lookupRoute rt msg.address = none →
      serverStep rt (.datagram d sender) = .ok none) ∧
    (∀ rt d sender msg f,
      parse_bytes d = .ok msg →
      lookupRoute rt msg.address = some f →
      f msg = none →
      serverStep rt (.datagram d sender) = .ok none) := by
  refine ⟨?_, ?_, ?_⟩
  · intro rt d sender msg f response out hp hl hf hb
    rw [serverStep]
    simp only [hp, hl, hf, hb]
  · intro rt d sender msg hp hl
    rw [serverStep]
    simp only [hp, hl]
  · intro rt d sender msg f hp hl hf
    rw [serverStep]
    simp only [hp, hl, hf]

/-- C4 witness: a route /ping returning the Str "Pong!" answers a /ping
request with the encoded reply, and a request to an unregistered /nope gets
no reply. -/
theorem C4_dispatch_witness :
    serverStep [([47, 112, 105, 110, 103], fun _ => some [Arg.str [80, 111, 110, 103, 33]])]
        (.datagram [47, 112, 105, 110, 103, 0, 0, 0, 44, 115, 0, 0, 104, 105, 0, 0] 7) =
      .ok (some ([47, 112, 105, 110, 103, 0, 0, 0, 44, 115, 0, 0,
        80, 111, 110, 103, 33, 0, 0, 0], 7)) ∧
    serverStep [([47, 112, 105, 110, 103], fun _ => some [Arg.str [80, 111, 110, 103, 33]])]
        (.datagram [47, 110, 111, 112, 101, 0, 0, 0, 44, 0, 0, 0] 7) = .ok none :=
  ⟨C4_dispatch.1 _ _ 7 ⟨[47, 112, 105, 110, 103], [Arg.str [104, 105]]⟩
      (fun _ => some [Arg.str [80, 111, 110, 103, 33]])
      [Arg.str [80, 111, 110, 103, 33]] _ (by decide) rfl rfl (by decide),
    C4_dispatch.2.1 _ _ 7 ⟨[47, 110, 111, 112, 101], []⟩ (by decide) rfl⟩

/-- C2 counterexample: a transport-level receive failure is not fatal. The
loop body maps a recv_from error to no action, and a run that hits a receive
failure keeps serving: the /ping request that follows the failure is still
answered, so start() does not stop looping or propagate the receive error. -/
theorem C2_counterexample :
    serverStep [([47, 112, 105, 110, 103], fun _ => some [Arg.str [80, 111, 110, 103, 33]])]
        RecvEvent.failure = .ok none ∧
    serverRun [([47, 112, 105, 110, 103], fun _ => some [Arg.str [80, 111, 110, 103, 33]])]
        [RecvEvent.failure,
          RecvEvent.datagram [47, 112, 105, 110, 103, 0, 0, 0, 44, 115, 0, 0, 104, 105, 0, 0] 7] =
      .ok [([47, 112, 105, 110, 103, 0, 0, 0, 44, 115, 0, 0,
        80, 111, 110, 103, 33, 0, 0, 0], 7)] :=
  ⟨rfl, by decide⟩

/-- C2 as amended: a per-message decode failure is recoverable, and a
transport-level receive failure is equally recoverable: the loop skips both
and keeps serving the remaining events; no receive error propagates out of
the loop. -/
theorem C2_loop_recoverable (rt : RouteTable) (evs : List RecvEvent)
    (d : List Byte) (s : Nat) (e : Error) (hd : parse_bytes d = .error e) :
    serverRun rt (RecvEvent.failure :: evs) = serverRun rt evs ∧
    serverRun rt (RecvEvent.datagram d s :: evs) = serverRun rt evs := by
  constructor
  · rw [serverRun, serverStep]
  · rw [serverRun, serverStep, hd]

/-- C2 witness: the amended statement evaluated on a concrete malformed
datagram and an empty route table. -/
theorem C2_loop_recoverable_witness :
    serverRun [] [RecvEvent.failure] = serverRun [] [] ∧
    serverRun [] [RecvEvent.datagram [1] 3] = serverRun [] [] :=
  C2_loop_recoverable [] [] [1] 3 (.alignment 1 4) (by decide)

/-! ## Round-trip (C1) -/

theorem length_encArg_mod (a : Arg) : (encArg a).length % 4 = 0 := by
  cases a with
  | int i => simp [encArg, int32ToBytes, toBytes4]
  | float f => simp [encArg, toBytes4]
  | str s => exact length_write_string_mod s
  | blob b =>
    simp [encArg, toBytes4]
    omega

theorem length_valsOf_mod (args : List Arg) : (valsOf args).length % 4 = 0 := by
  induction args with
  | nil => rfl
  | cons a rest ih =>
    simp only [valsOf, List.length_append]
    have := length_encArg_mod a
    omega

theorem write_arg_ok (a : Arg) (h : validArg a = true) : write_arg a = .ok (encArg a) := by
  cases a with
  | int i => rfl
  | float f => rfl
  | str s => rfl
  | blob b =>
    simp only [validArg, Bool.and_eq_true, decide_eq_true_eq] at h
    simp [write_arg, write_blob, encArg, h.1]

theorem writeArgs_ok (args : List Arg) (hv : ∀ a ∈ args, validArg a = true) :
    writeArgs args = .ok (valsOf args) := by
  induction args with
  | nil => rfl
  | cons a rest ih =>
    rw [writeArgs, write_arg_ok a (hv a (by simp)), ih (fun x hx => hv x (by simp [hx]))]
    rfl

theorem build_ok (m : OscMessage) (hv : validMsg m = true) :
    build m = .ok (write_string m.address ++
      (write_string (44 :: m.args.map arg_char_repr) ++ valsOf m.args)) := by
  have hargs : ∀ a ∈ m.args, validArg a = true := by
    simp only [validMsg, Bool.and_eq_true, List.all_eq_true] at hv
    exact hv.2
  rw [build]
  by_cases he : m.args.isEmpty
  · rw [if_pos he]
    have hnil : m.args = [] := by simpa using he
    rw [hnil]
    simp [valsOf]
  · rw [if_neg he, writeArgs_ok m.args hargs]
    simp

theorem drop_shift (data : List Byte) (i : Nat) (v r : List Byte)
    (hd : data.drop i = v ++ r) : data.drop (i + v.length) = r := by
  have h : (data.drop i).drop v.length = data.drop (i + v.length) := List.drop_drop v.length i data
  rw [hd, List.drop_left] at h
  exact h.symm

theorem scanN_exact (data : List Byte) (n0 i : Nat) (v r : List Byte)
    (hd : data.drop i = v ++ r) :
    scanN data n0 v.length i = .ok (v, i + v.length) := by
  have h := scanN_ok data n0 v.length i (by rw [hd]; simp)
  rw [hd, List.take_left] at h
  exact h

theorem bytesVal_toBytes4 (u : Nat) (h : u < 4294967296) : bytesVal (toBytes4 u) = u := by
  simp [bytesVal, toBytes4, fromBytes4]
  omega

theorem toInt32_int32 (i : Int) (h1 : -2147483648 ≤ i) (h2 : i < 2147483648) :
    toInt32 (bytesVal (int32ToBytes i)) = i := by
  rw [int32ToBytes, bytesVal_toBytes4 _ (by omega)]
  rw [toInt32]
  split <;> omega

theorem blobLastOnly_tail (a : Arg) (rest : List Arg)
    (h : blobLastOnly (a :: rest) = true) : blobLastOnly rest = true := by
  cases rest with
  | nil => rfl
  | cons b r =>
    rw [blobLastOnly, Bool.and_eq_true] at h
    exact h.2

theorem checkTags_map (args : List Arg) :
    checkTags (args.map arg_char_repr) = .ok () := by
  induction args with
  | nil => rfl
  | cons a rest ih =>
    cases a <;> simpa [checkTags, isGoodTag, arg_char_repr] using ih

/-- The value second pass recovers exactly the encoded arguments when the
cursor is 4-byte aligned at a value section laid out by the encoder and any
blob argument comes last. -/
theorem readArgs_build (data : List Byte) (args : List Arg) :
    ∀ i, (∀ a ∈ args, validArg a = true) → blobLastOnly args = true → i % 4 = 0 →
      data.drop i = valsOf args →
      ∃ j, readArgs data (args.map arg_char_repr) i = .ok (args, j) := by
  induction args with
  | nil => intro i _ _ _ _; exact ⟨i, rfl⟩
  | cons a rest ih =>
    intro i hv hbl hi hd
    rw [valsOf] at hd
    cases a with
    | int iv =>
      have hva : validArg (Arg.int iv) = true := hv _ (by simp)
      simp only [validArg, decide_eq_true_eq] at hva
      simp only [encArg] at hd
      have hlen4 : (int32ToBytes iv).length = 4 := by simp [int32ToBytes, toBytes4]
      have hscan := scanN_exact data 4 i (int32ToBytes iv) (valsOf rest) hd
      rw [hlen4] at hscan
      have hdrop2 : data.drop (i + 4) = valsOf rest := by
        have h := drop_shift data i (int32ToBytes iv) (valsOf rest) hd
        rw [hlen4] at h
        exact h
      obtain ⟨j, hrec⟩ := ih (i + 4) (fun x hx => hv x (by simp [hx]))
        (blobLastOnly_tail _ _ hbl) (by omega) hdrop2
      refine ⟨j, ?_⟩
      simp only [List.map_cons, arg_char_repr]
      rw [readArgs, if_pos rfl, hscan]
      simp only [hrec, toInt32_int32 iv hva.1 hva.2]
    | float fv =>
      have hva : validArg (Arg.float fv) = true := hv _ (by simp)
      simp only [validArg, decide_eq_true_eq] at hva
      simp only [encArg] at hd
      have hlen4 : (toBytes4 fv).length = 4 := by simp [toBytes4]
      have hscan := scanN_exact data 4 i (toBytes4 fv) (valsOf rest) hd
      rw [hlen4] at hscan
      have hdrop2 : data.drop (i + 4) = valsOf rest := by
        have h := drop_shift data i (toBytes4 fv) (valsOf rest) hd
        rw [hlen4] at h
        exact h
      obtain ⟨j, hrec⟩ := ih (i + 4) (fun x hx => hv x (by simp [hx]))
        (blobLastOnly_tail _ _ hbl) (by omega) hdrop2
      refine ⟨j, ?_⟩
      simp only [List.map_cons, arg_char_repr]
      rw [readArgs, if_neg (by decide), if_pos rfl, hscan]
      simp only [hrec, bytesVal_toBytes4 fv hva]
    | str s =>
      have hva : validArg (Arg.str s) = true := hv _ (by simp)
      simp only [validArg, List.all_eq_true, Bool.and_eq_true, bne_iff_ne, ne_eq,
        decide_eq_true_eq] at hva
      simp only [encArg] at hd
      have hscan : scanZero (data.drop i) = (s, s.length) := by
        rw [hd, write_string_cons_zero]
        exact scanZero_no_zero_append s _ (fun b hb => (hva b hb).1)
      have hal : alignUp (i + s.length) = i + (write_string s).length := by
        rw [alignUp_aligned_add _ _ hi, alignUp_length_write_string]
      have hdrop2 : data.drop (i + (write_string s).length) = valsOf rest :=
        drop_shift data i (write_string s) (valsOf rest) hd
      obtain ⟨j, hrec⟩ := ih (i + (write_string s).length)
        (fun x hx => hv x (by simp [hx])) (blobLastOnly_tail _ _ hbl)
        (by have := length_write_string_mod s; omega) hdrop2
      refine ⟨j, ?_⟩
      simp only [List.map_cons, arg_char_repr]
      rw [readArgs, if_neg (by decide), if_neg (by decide), if_pos rfl]
      simp only [hscan, hal, hrec]
    | blob b =>
      have hva : validArg (Arg.blob b) = true := hv _ (by simp)
      simp only [validArg, Bool.and_eq_true, decide_eq_true_eq] at hva
      cases rest with
      | cons c rest' => exact absurd hbl (by simp [blobLastOnly, notBlob])
      | nil =>
        simp only [encArg, valsOf, List.append_nil] at hd
        have hlen4 : (toBytes4 b.length).length = 4 := by simp [toBytes4]
        have hscan4 := scanN_exact data 4 i (toBytes4 b.length)
          (b ++ List.replicate (4 - b.length % 4) 0) hd
        rw [hlen4] at hscan4
        have hdropb : data.drop (i + 4) = b ++ List.replicate (4 - b.length % 4) 0 := by
          have h := drop_shift data i (toBytes4 b.length) _ hd
          rw [hlen4] at h
          exact h
        have hbv : bytesVal (toBytes4 b.length) = b.length := bytesVal_toBytes4 _ (by omega)
        have hsz : toInt32 b.length = (b.length : Int) := by
          rw [toInt32, if_pos (by omega)]
        have hscanb := scanN_exact data b.length (i + 4) b
          (List.replicate (4 - b.length % 4) 0) hdropb
        refine ⟨i + 4 + b.length, ?_⟩
        simp only [List.map_cons, arg_char_repr, List.map_nil]
        rw [readArgs, if_neg (by decide), if_neg (by decide), if_neg (by decide), if_pos rfl,
          hscan4]
        simp only [hbv, hsz]
        rw [if_neg (by omega)]
        simp only [Int.toNat_natCast, hscanb, readArgs]

/-- C1 as amended: for every valid message whose blob arguments (if any) sit
in final position, parsing the built bytes returns the message itself: same
address, same arguments, same order. (The restriction is forced because the
decoder does not skip a blob's trailing padding, so any argument after a
blob is misread.) -/
theorem C1_roundtrip_amended (m : OscMessage) (hv : validMsg m = true)
    (hbl : blobLastOnly m.args = true) (bs : List Byte) (hb : build m = .ok bs) :
    parse_bytes bs = .ok m := by
  rw [build_ok m hv] at hb
  have hbs : bs = write_string m.address ++
      (write_string (44 :: m.args.map arg_char_repr) ++ valsOf m.args) := by
    injection hb with h
    exact h.symm
  subst hbs
  have haddr : ∀ x ∈ m.address, x ≠ 0 := by
    simp only [validMsg, Bool.and_eq_true, List.all_eq_true, bne_iff_ne, ne_eq,
      decide_eq_true_eq] at hv
    exact fun x hx => (hv.1 x hx).1
  have hargs : ∀ a ∈ m.args, validArg a = true := by
    simp only [validMsg, Bool.and_eq_true, List.all_eq_true] at hv
    exact hv.2
  have htags : ∀ x ∈ (44 : Byte) :: m.args.map arg_char_repr, x ≠ 0 := by
    intro x hx
    rcases List.mem_cons.mp hx with h | h
    · subst h; decide
    · obtain ⟨a, _, rfl⟩ := List.mem_map.mp h
      cases a <;> simp [arg_char_repr]
  have hlen : (write_string m.address ++
      (write_string (44 :: m.args.map arg_char_repr) ++ valsOf m.args)).length % 4 = 0 := by
    simp only [List.length_append]
    have h1 := length_write_string_mod m.address
    have h2 := length_write_string_mod (44 :: m.args.map arg_char_repr)
    have h3 := length_valsOf_mod m.args
    omega
  rw [parse_header m.address (44 :: m.args.map arg_char_repr) (valsOf m.args) haddr htags hlen]
  simp only [parseTail]
  simp only [ne_eq, not_true_eq_false, if_false]
  rw [checkTags_map]
  have hdrop : (write_string m.address ++
      (write_string (44 :: m.args.map arg_char_repr) ++ valsOf m.args)).drop
      ((write_string m.address).length +
        (write_string (44 :: m.args.map arg_char_repr)).length) = valsOf m.args := by
    rw [← List.drop_drop, List.drop_left]
    exact List.drop_left _ _
  obtain ⟨j, hread⟩ := readArgs_build (write_string m.address ++
      (write_string (44 :: m.args.map arg_char_repr) ++ valsOf m.args)) m.args
    ((write_string m.address).length + (write_string (44 :: m.args.map arg_char_repr)).length)
    hargs hbl
    (by have h1 := length_write_string_mod m.address
        have h2 := length_write_string_mod (44 :: m.args.map arg_char_repr)
        omega)
    hdrop
  rw [hread]

/-- C1 witness: the amended round trip at a concrete message carrying an
Int, a Float, a Str and a final Blob. -/
theorem C1_roundtrip_amended_witness :
    parse_bytes [47, 97, 0, 0, 44, 105, 102, 115, 98, 0, 0, 0, 255, 255, 255, 249,
        63, 128, 0, 0, 104, 105, 0, 0, 0, 0, 0, 3, 1, 2, 3, 0] =
      .ok ⟨[47, 97], [Arg.int (-7), Arg.float 1065353216, Arg.str [104, 105],
        Arg.blob [1, 2, 3]]⟩ :=
  C1_roundtrip_amended
    ⟨[47, 97], [Arg.int (-7), Arg.float 1065353216, Arg.str [104, 105], Arg.blob [1, 2, 3]]⟩
    (by decide) (by decide) _ (by decide)

/-- C1 counterexample: the round trip fails as stated. The valid message
with address "/a" and arguments [Blob [], Int 5] builds successfully, but
parsing the built bytes yields Int 0 in place of Int 5, because the decoder
does not skip the blob's trailing padding. -/
theorem C1_counterexample :
    validMsg ⟨[47, 97], [Arg.blob [], Arg.int 5]⟩ = true ∧
    build ⟨[47, 97], [Arg.blob [], Arg.int 5]⟩ =
      .ok [47, 97, 0, 0, 44, 98, 105, 0, 0, 0, 0, 0, 0, 0, 0, 0, 0, 0, 0, 5] ∧
    parse_bytes [47, 97, 0, 0, 44, 98, 105, 0, 0, 0, 0, 0, 0, 0, 0, 0, 0, 0, 0, 5] =
      .ok ⟨[47, 97], [Arg.blob [], Arg.int 0]⟩ ∧
    (⟨[47, 97], [Arg.blob [], Arg.int 0]⟩ : OscMessage) ≠
      ⟨[47, 97], [Arg.blob [], Arg.int 5]⟩ := by
  decide

end Osc
